import Mathlib

/-!
A verification development for the `fell` repository-fleet tool.

The definitions below are a shallow embedding of the source files:

* `src/src/git.js` — the VCS backend wrappers (`isStatusClean`, `hasBranch`,
  `deleteBranch`, `sync`, `commitAll`, `isAheadOfMaster`);
* `src/src/cmd/branch.ts` (second document: the `sync` command handler) and
  `src/unnamed/part_000` (the `commit` command handler).

External nodegit calls are embedded by their documented git semantics
(revision walks, fast-forward-only merges, index staging, commit creation).
Git object identifiers are modelled as natural numbers, commit graphs as a
parent function, and the revision walk is given explicit fuel: any fuel at
least the number of reachable commits plus visited duplicates makes the walk
exhaustive, exactly as the finite acyclic git graph guarantees termination
in the original.  Promise-returning functions become `Except`-valued
functions; a rejected promise is `Except.error`.
-/

/-- A commit identifier (the sha, abstracted to a natural number). -/
abbrev Sha := Nat

/-- The per-repository failures of the error taxonomy that the embedded
operations can surface.  `nothingToCommit` is included so that the
specified (but, as proved below, never produced) commit precondition
failure is expressible. -/
inductive GitError where
  | divergedHistory
  | nothingToCommit
  | noHead
  | branchNotFound (name : String)
deriving DecidableEq

/-- Worklist revision walk: `historyAux parents fuel frontier visited`
visits commits breadth-first from the frontier, skipping already-visited
shas, and returns the visited list in visit order.  This embeds the
revwalk behind nodegit's `commit.history()` (git rev-list), which emits
the starting commit itself first and then its ancestors. -/
def historyAux (parents : Sha → List Sha) : Nat → List Sha → List Sha → List Sha
  | 0, _, visited => visited.reverse
  | _ + 1, [], visited => visited.reverse
  | n + 1, c :: frontier, visited =>
    if visited.contains c then historyAux parents n frontier visited
    else historyAux parents n (frontier ++ parents c) (c :: visited)

/-- The commits emitted by a revision walk starting at `c`: `c` itself and
its ancestors (given sufficient fuel). -/
def commitHistory (parents : Sha → List Sha) (fuel : Nat) (c : Sha) : List Sha :=
  historyAux parents fuel [c] []

/-- Reachability: `a` is reachable from `b` (an ancestor of, or equal
to, `b`). -/
def isAncestorOf (parents : Sha → List Sha) (fuel : Nat) (a b : Sha) : Bool :=
  (commitHistory parents fuel b).contains a

/-- Embeds `isAheadOfMaster` from `src/src/git.js` lines 110-127: if the
HEAD sha equals the master sha, return `false`; otherwise collect
`priorShas`, the shas of the walk started at the *master* commit
(`masterCommit.history()`), and return whether the *master* sha occurs in
that list (`priorShas.includes(masterCommit.sha())`). -/
def isAheadOfMaster (parents : Sha → List Sha) (fuel : Nat) (head master : Sha) : Bool :=
  if head == master then false
  else (commitHistory parents fuel master).contains master

/-- The behaviour claim C1 specifies for `isAheadOfDefault`, written from
the spec's words for comparison with the source embedding above: true iff
HEAD's identifier differs from the default branch's identifier and the
default branch's commit is reachable from HEAD's history. -/
def isAheadOfDefaultSpec (parents : Sha → List Sha) (fuel : Nat) (head master : Sha) : Bool :=
  !(head == master) && (commitHistory parents fuel head).contains master

/-- A two-branch diverged commit graph: root `0`, with `1` and `2` two
distinct children of the root (each side has one unique commit). -/
def divergedParents : Sha → List Sha := fun c => if c == 1 || c == 2 then [0] else []

/-- Embeds `isStatusClean` from `src/src/git.js` lines 12-16: the status
entries (`repo.getStatus()`, one element per pending untracked, modified,
or staged file) are abstracted as the list the backend reports; the
function returns whether that list has length zero. -/
def isStatusClean (statusFiles : List String) : Bool :=
  statusFiles.length == 0

/-- The slice of a repository that the branch operations consult:
`getBranch` is the nodegit branch lookup (which can fail for any reason,
not only absence), and `branchDelete` is the integer result code of
`NodeGit.Branch.delete`. -/
structure BranchRepo where
  getBranch : String → Except GitError Sha
  branchDelete : Sha → Int

/-- Embeds `hasBranch` from `src/src/git.js` lines 18-29: try the branch
lookup; on success return `true`, and any thrown error is caught and
turned into `false`. -/
def hasBranch (r : BranchRepo) (name : String) : Bool :=
  match r.getBranch name with
  | Except.ok _ => true
  | Except.error _ => false

/-- Embeds `deleteBranch` from `src/src/git.js` lines 31-39: look up the
branch with no try/catch (a lookup failure rejects the promise), then
delete it and return whether the result code is `0`. -/
def deleteBranch (r : BranchRepo) (name : String) : Except GitError Bool := do
  let ref ← r.getBranch name
  let res := r.branchDelete ref
  pure (res == 0)

/-- A concrete `BranchRepo` with a single branch `dev`; lookups of any
other name fail. -/
def brRepo : BranchRepo :=
  { getBranch := fun n => if n = "dev" then Except.ok 5 else Except.error (GitError.branchNotFound n),
    branchDelete := fun _ => 0 }

/-- A managed repository reference: a path and a logical name (spec §3,
`RepositoryRef`). -/
structure RepoRef where
  path : String
  name : String
deriving DecidableEq

/-- Modelled from the spec: `getRepos` lives in `src/repos.ts`, which is
not among the sources; per §4.1 it loads the configured repository set,
removes repositories whose logical name is excluded, and, when a scope is
given, keeps only repositories whose path matches the scope prefix. -/
def getRepos (catalog : List RepoRef) (exclude : List String) (scope : Option String) :
    List RepoRef :=
  (catalog.filter (fun r => !(exclude.contains r.name))).filter
    (fun r =>
      match scope with
      | none => true
      | some p => r.path.startsWith p)

/-- Modelled from the spec: `getStatusGroups` lives in `src/repos.ts`,
which is not among the sources; per §4.3 it invokes the status check on
each repository of the set and partitions the set into the clean bucket
and the dirty bucket.  The per-repository status call is abstracted as the
boolean function `isClean`. -/
def getStatusGroups (isClean : RepoRef → Bool) (repos : List RepoRef) :
    List RepoRef × List RepoRef :=
  (repos.filter isClean, repos.filter (fun r => !(isClean r)))

/-- Embeds `Promise.all` over an already-dispatched list of settled
results: every promise in the list runs regardless, and the combined
promise resolves with the list of values when all succeed, or rejects
with a rejection reason of a member (modelled as the leftmost error)
when any fails. -/
def promiseAll {ε α : Type} : List (Except ε α) → Except ε (List α)
  | [] => Except.ok []
  | x :: xs =>
    match x with
    | Except.error e => Except.error e
    | Except.ok a => (promiseAll xs).map (fun l => a :: l)

/-- Embeds the `sync` command handler (`src/src/cmd/branch.ts`, second
document, lines 33-38): filter the catalog (`getRepos exclude scope`),
take the clean group, dispatch `git.sync` on every clean repository via
`Promise.all(clean.map(git.sync))`, and report `clean.length` as the
summary once the awaited batch resolves.  The first component records the
repositories the operation was dispatched on (the list mapped over); the
second is the awaited result carrying the reported count. -/
def syncHandler (backend : RepoRef → Except GitError Unit) (isClean : RepoRef → Bool)
    (catalog : List RepoRef) (exclude : List String) (scope : Option String) :
    List RepoRef × Except GitError Nat :=
  let repos := getRepos catalog exclude scope
  let clean := (getStatusGroups isClean repos).1
  (clean, (promiseAll (clean.map backend)).map (fun _ => clean.length))

/-- Embeds the `commit` command handler (`src/unnamed/part_000`, lines
12-19): filter the catalog, take the dirty group, dispatch
`git.commitAll(repo, message)` on every dirty repository via
`Promise.all`, and report `dirty.length` as the summary once the awaited
batch resolves. -/
def commitHandler (backend : RepoRef → String → Except GitError Unit)
    (isClean : RepoRef → Bool) (catalog : List RepoRef) (exclude : List String)
    (scope : Option String) (message : String) :
    List RepoRef × Except GitError Nat :=
  let repos := getRepos catalog exclude scope
  let dirty := (getStatusGroups isClean repos).2
  (dirty, (promiseAll (dirty.map (fun repo => backend repo message))).map (fun _ => dirty.length))

/-- Concrete repository `a` used by the batch scenarios. -/
def repoA : RepoRef := { path := "pkg/a", name := "a" }

/-- Concrete repository `b` used by the batch scenarios. -/
def repoB : RepoRef := { path := "pkg/b", name := "b" }

/-- A backend whose call fails on repository `a` and succeeds elsewhere. -/
def badBackend : RepoRef → Except GitError Unit :=
  fun r => if r.name = "a" then Except.error GitError.divergedHistory else Except.ok ()

/-- The slice of a repository that `sync` consults: the ref store
(branch name to commit, covering local branches and remote-tracking refs
such as `origin/master`), the shorthand of the current branch
(`getCurrentBranch`), the commit graph, the commits present in the object
store, and the commit currently at the remote's master (read by
`fetchAll` into the `origin/master` remote-tracking ref). -/
structure SyncRepo where
  refs : String → Option Sha
  currentBranch : String
  parents : Sha → List Sha
  commits : List Sha
  remoteMaster : Option Sha

/-- Embeds `repo.fetchAll` as far as `sync` observes it: fetching all
remotes updates the `origin/master` remote-tracking ref to the remote's
current master commit (the only ref the subsequent merge reads). -/
def fetchAll (r : SyncRepo) : SyncRepo :=
  { r with refs := fun n => if n = "origin/master" then r.remoteMaster else r.refs n }

/-- Embeds nodegit's `repo.mergeBranches(to, from, sig, FASTFORWARD_ONLY)`
by its fast-forward-only contract: resolve both branch commits; if the
`from` commit is already reachable from the `to` commit the repository is
up to date and nothing changes; if the `to` commit is an ancestor of the
`from` commit the `to` ref fast-forwards to the `from` commit; otherwise
the histories have diverged and the merge fails without touching the
repository — no merge commit is ever created. -/
def mergeBranchesFFOnly (fuel : Nat) (r : SyncRepo) (toName fromName : String) :
    Except GitError SyncRepo :=
  match r.refs toName, r.refs fromName with
  | some toC, some fromC =>
    if isAncestorOf r.parents fuel fromC toC then Except.ok r
    else if isAncestorOf r.parents fuel toC fromC then
      Except.ok { r with refs := fun n => if n = toName then some fromC else r.refs n }
    else Except.error GitError.divergedHistory
  | none, _ => Except.error (GitError.branchNotFound toName)
  | some _, none => Except.error (GitError.branchNotFound fromName)

/-- Embeds `sync` from `src/src/git.js` lines 41-51: read the current
branch shorthand, fetch all remotes, then merge the current branch with
the literal ref name `origin/master` under the fast-forward-only merge
preference. -/
def sync (fuel : Nat) (r : SyncRepo) : Except GitError SyncRepo :=
  let branch := r.currentBranch
  let fetched := fetchAll r
  mergeBranchesFFOnly fuel fetched branch "origin/master"

/-- A concrete repository on branch `feature` at commit `1`, whose remote
master is at commit `2`; with `divergedParents` the two sides have
diverged (each has one commit the other lacks). -/
def syncRepoDiverged : SyncRepo :=
  { refs := fun n => if n = "feature" then some 1 else none,
    currentBranch := "feature",
    parents := divergedParents,
    commits := [1, 0],
    remoteMaster := some 2 }

/-- A concrete repository on branch `feature` at the root commit `0`,
whose remote master is at commit `2` (a descendant): strictly behind, so
a fast-forward applies. -/
def syncRepoBehind : SyncRepo :=
  { refs := fun n => if n = "feature" then some 0 else none,
    currentBranch := "feature",
    parents := divergedParents,
    commits := [0],
    remoteMaster := some 2 }

/-- The slice of a repository that `commitAll` consults: the optional
HEAD commit (`Reference.nameToId(repo, 'HEAD')` fails when the repository
has no commits yet), the commits in the object store, each commit's tree,
each commit's message, and the tree the working content currently
describes (what `index.addAll(); index.write(); index.writeTree()`
produces after staging everything).  A clean working tree is one whose
`workTree` equals the HEAD commit's tree: zero pending changes. -/
structure CommitRepo where
  headCommit : Option Sha
  commits : List Sha
  treeOf : Sha → Nat
  msgOf : Sha → String
  workTree : Nat

/-- A commit id not yet present in the object store (one past the largest
existing id). -/
def freshSha (r : CommitRepo) : Sha :=
  r.commits.foldr max 0 + 1

/-- Embeds `commitAll` from `src/src/git.js` lines 62-83: stage the whole
working tree (`addAll`), write the index tree (`oid`), resolve HEAD
(failing when the repository has no commits yet), and unconditionally
create a commit on HEAD with that tree, the given message, and the old
HEAD as sole parent — there is no staged-changes check anywhere on the
path, so the call never produces `nothingToCommit`. -/
def commitAll (r : CommitRepo) (message : String) : Except GitError (CommitRepo × Sha) :=
  let oid := r.workTree
  match r.headCommit with
  | none => Except.error GitError.noHead
  | some _parent =>
    let newSha := freshSha r
    Except.ok
      ({ r with
          headCommit := some newSha,
          commits := newSha :: r.commits,
          treeOf := fun c => if c = newSha then oid else r.treeOf c,
          msgOf := fun c => if c = newSha then message else r.msgOf c },
        newSha)

/-- A concrete clean repository: one commit `1` with tree `7`, and the
working content still describes tree `7` (zero pending changes). -/
def cleanCommitRepo : CommitRepo :=
  { headCommit := some 1,
    commits := [1],
    treeOf := fun _ => 7,
    msgOf := fun _ => "init",
    workTree := 7 }

/-- Claim C1 (code bug): on the diverged graph (HEAD = 1, master = 2, both
children of root 0) the source's `isAheadOfMaster` returns `true`, while
the specified `isAheadOfDefault` semantics demand `false`.  The source's
membership test is a tautology: it asks whether master's sha occurs in the
walk started at master, which holds whenever any commit is emitted, so the
function degenerates to sha inequality and never consults HEAD's
ancestry. -/
theorem isAheadOfMaster_diverged_bug :
    isAheadOfMaster divergedParents 8 1 2 = true ∧
    isAheadOfDefaultSpec divergedParents 8 1 2 = false := by
  constructor
  · rfl
  · rfl

/-- Claim C7: `isStatusClean` reports clean exactly when the backend's
status list has zero pending entries, and dirty exactly when at least one
pending change exists. -/
theorem isStatusClean_iff_no_changes (statusFiles : List String) :
    (isStatusClean statusFiles = true ↔ statusFiles.length = 0) ∧
    (isStatusClean statusFiles = false ↔ 0 < statusFiles.length) := by
  cases statusFiles with
  | nil => simp [isStatusClean]
  | cons f fs => simp [isStatusClean]

/-- Claim C9: `hasBranch` always resolves to a boolean determined by the
branch lookup alone; every lookup failure (whatever the error) is mapped
to `false`, and every successful lookup to `true` — the lookup error is
never propagated. -/
theorem hasBranch_error_to_false (r : BranchRepo) (name : String) :
    (∀ e, r.getBranch name = Except.error e → hasBranch r name = false) ∧
    (∀ s, r.getBranch name = Except.ok s → hasBranch r name = true) := by
  constructor
  · intro e he
    simp [hasBranch, he]
  · intro s hs
    simp [hasBranch, hs]

/-- Witness for C9: on the concrete repository, looking up the absent
branch `gone` fails, and `hasBranch` maps that failure to `false`. -/
theorem hasBranch_error_to_false_witness : hasBranch brRepo "gone" = false :=
  (hasBranch_error_to_false brRepo "gone").1 (GitError.branchNotFound "gone") rfl

/-- Claim C10: `deleteBranch` propagates the branch-lookup error (it
rejects rather than returning `false`) when the branch is missing, and
when the lookup succeeds it returns `true` exactly when the backend's
delete result code is `0`. -/
theorem deleteBranch_propagates_missing (r : BranchRepo) (name : String) :
    (∀ e, r.getBranch name = Except.error e → deleteBranch r name = Except.error e) ∧
    (∀ s, r.getBranch name = Except.ok s →
      deleteBranch r name = Except.ok (r.branchDelete s == 0)) := by
  constructor
  · intro e he
    simp [deleteBranch, he]
  · intro s hs
    simp [deleteBranch, hs]

/-- Witness for C10: on the concrete repository, deleting the absent
branch `gone` rejects with the lookup error, and deleting the existing
branch `dev` succeeds with `true` (its delete result code is `0`). -/
theorem deleteBranch_propagates_missing_witness :
    deleteBranch brRepo "gone" = Except.error (GitError.branchNotFound "gone") ∧
    deleteBranch brRepo "dev" = Except.ok true := by
  constructor
  · exact (deleteBranch_propagates_missing brRepo "gone").1 (GitError.branchNotFound "gone") rfl
  · exact (deleteBranch_propagates_missing brRepo "dev").2 5 rfl

/-- Helper: a batch containing a rejected member rejects, and the
rejection reason is the reason of some member of the batch. -/
theorem promiseAll_mem_error {ε α : Type} (xs : List (Except ε α)) (e : ε)
    (hx : Except.error e ∈ xs) :
    ∃ e', promiseAll xs = Except.error e' ∧ Except.error e' ∈ xs := by
  induction xs with
  | nil => cases hx
  | cons x xs ih =>
    cases x with
    | error e0 => exact ⟨e0, rfl, List.mem_cons_self _ _⟩
    | ok a =>
      have hx' : Except.error e ∈ xs := by
        cases hx with
        | tail _ h => exact h
      obtain ⟨e', he', hmem⟩ := ih hx'
      refine ⟨e', ?_, List.mem_cons_of_mem _ hmem⟩
      simp [promiseAll, he', Except.map]

/-- Helper: a successful mapped batch comes from a successful batch. -/
theorem except_map_ok {ε α β : Type} (f : α → β) (x : Except ε α) (b : β)
    (h : Except.map f x = Except.ok b) : ∃ a, x = Except.ok a ∧ f a = b := by
  cases x with
  | error e => simp [Except.map] at h
  | ok a =>
    refine ⟨a, rfl, ?_⟩
    simpa [Except.map] using h

/-- Claim C5: the `sync` handler dispatches the backend operation on
exactly the repositories of the filtered set that are classified clean
(every clean one, no dirty one), and whenever the batch resolves the
reported summary count equals the number of clean repositories. -/
theorem sync_handler_targets_clean (backend : RepoRef → Except GitError Unit)
    (isClean : RepoRef → Bool) (catalog : List RepoRef) (exclude : List String)
    (scope : Option String) :
    (∀ r, r ∈ (syncHandler backend isClean catalog exclude scope).1 ↔
      (r ∈ getRepos catalog exclude scope ∧ isClean r = true)) ∧
    (∀ n, (syncHandler backend isClean catalog exclude scope).2 = Except.ok n →
      n = List.countP isClean (getRepos catalog exclude scope)) := by
  constructor
  · intro r
    simp [syncHandler, getStatusGroups, List.mem_filter]
  · intro n h
    simp only [syncHandler, getStatusGroups] at h
    obtain ⟨l, -, hn⟩ := except_map_ok _ _ _ h
    rw [List.countP_eq_length_filter]
    exact hn.symm

/-- Witness for C5: in the catalog {A (clean), B (clean)} with no
exclusions and no scope, the resolved summary is `2`, the number of clean
repositories. -/
theorem sync_handler_targets_clean_witness :
    2 = List.countP (fun _ => true) (getRepos [repoA, repoB] [] none) :=
  (sync_handler_targets_clean (fun _ => Except.ok ()) (fun _ => true)
    [repoA, repoB] [] none).2 2 rfl

/-- Claim C6: the `commit` handler dispatches `commitAll` with the given
message on exactly the repositories of the filtered set that are
classified dirty (every dirty one, no clean one), and whenever the batch
resolves the reported summary count equals the number of dirty
repositories. -/
theorem commit_handler_targets_dirty (backend : RepoRef → String → Except GitError Unit)
    (isClean : RepoRef → Bool) (catalog : List RepoRef) (exclude : List String)
    (scope : Option String) (message : String) :
    (∀ r, r ∈ (commitHandler backend isClean catalog exclude scope message).1 ↔
      (r ∈ getRepos catalog exclude scope ∧ isClean r = false)) ∧
    (∀ n, (commitHandler backend isClean catalog exclude scope message).2 = Except.ok n →
      n = List.countP (fun r => !(isClean r)) (getRepos catalog exclude scope)) := by
  constructor
  · intro r
    simp [commitHandler, getStatusGroups, List.mem_filter]
  · intro n h
    simp only [commitHandler, getStatusGroups] at h
    obtain ⟨l, -, hn⟩ := except_map_ok _ _ _ h
    rw [List.countP_eq_length_filter]
    exact hn.symm

/-- Witness for C6: in the catalog {A (clean), B (dirty)} with no
exclusions and no scope, `commit` resolves with summary `1`, the number
of dirty repositories. -/
theorem commit_handler_targets_dirty_witness :
    1 = List.countP (fun r => !(if r = repoA then true else false))
      (getRepos [repoA, repoB] [] none) :=
  (commit_handler_targets_dirty (fun _ _ => Except.ok ())
    (fun r => if r = repoA then true else false) [repoA, repoB] [] none "wip").2 1 rfl

/-- Claim C2, counterexample: catalog {A, B}, both clean, with a backend
that fails on A and succeeds on B.  The `sync` handler's awaited batch is
`Except.error divergedHistory`: the failure is propagated past the batch
boundary (the handler's promise rejects, no outcome sequence or summary
is produced), even though the sibling repository's own call succeeds —
refuting the claim that the failure is recorded as A's outcome while the
batch completes. -/
theorem batch_failure_propagates_counterexample :
    (syncHandler badBackend (fun _ => true) [repoA, repoB] [] none).2 =
      Except.error GitError.divergedHistory ∧
    badBackend repoB = Except.ok () := by
  constructor
  · rfl
  · rfl

/-- Claim C2, amended: in both per-repository batches (`sync` over the
clean set, `commit` over the dirty set), every operation is still
dispatched — the handler maps the backend call over the whole group
before awaiting — but one failing call makes the awaited `Promise.all`
reject: the handler's result is an error that is the failure of some
dispatched repository, propagated past the batch boundary instead of
being recorded as a per-repository outcome. -/
theorem batch_failure_rejects_whole_batch :
    (∀ (backend : RepoRef → Except GitError Unit) (isClean : RepoRef → Bool)
      (catalog : List RepoRef) (exclude : List String) (scope : Option String)
      (r : RepoRef) (e : GitError),
      r ∈ (syncHandler backend isClean catalog exclude scope).1 →
      backend r = Except.error e →
      ∃ e', (syncHandler backend isClean catalog exclude scope).2 = Except.error e' ∧
        ∃ r', r' ∈ (syncHandler backend isClean catalog exclude scope).1 ∧
          backend r' = Except.error e') ∧
    (∀ (backend : RepoRef → String → Except GitError Unit) (isClean : RepoRef → Bool)
      (catalog : List RepoRef) (exclude : List String) (scope : Option String)
      (message : String) (r : RepoRef) (e : GitError),
      r ∈ (commitHandler backend isClean catalog exclude scope message).1 →
      backend r message = Except.error e →
      ∃ e', (commitHandler backend isClean catalog exclude scope message).2 = Except.error e' ∧
        ∃ r', r' ∈ (commitHandler backend isClean catalog exclude scope message).1 ∧
          backend r' message = Except.error e') := by
  constructor
  · intro backend isClean catalog exclude scope r e hr he
    have hmem : Except.error e ∈
        ((getStatusGroups isClean (getRepos catalog exclude scope)).1).map backend := by
      exact List.mem_map.mpr ⟨r, hr, he⟩
    obtain ⟨e', he', hmem'⟩ := promiseAll_mem_error _ e hmem
    obtain ⟨r', hr', hbe⟩ := List.mem_map.mp hmem'
    refine ⟨e', ?_, r', hr', hbe⟩
    simp only [syncHandler]
    rw [he']
    rfl
  · intro backend isClean catalog exclude scope message r e hr he
    have hmem : Except.error e ∈
        ((getStatusGroups isClean (getRepos catalog exclude scope)).2).map
          (fun repo => backend repo message) := by
      exact List.mem_map.mpr ⟨r, hr, he⟩
    obtain ⟨e', he', hmem'⟩ := promiseAll_mem_error _ e hmem
    obtain ⟨r', hr', hbe⟩ := List.mem_map.mp hmem'
    refine ⟨e', ?_, r', hr', hbe⟩
    simp only [commitHandler]
    rw [he']
    rfl

/-- Witness for the amended C2: with the backend failing on A in the
clean catalog {A, B}, the `sync` batch rejects with a dispatched
repository's failure. -/
theorem batch_failure_rejects_whole_batch_witness :
    ∃ e', (syncHandler badBackend (fun _ => true) [repoA, repoB] [] none).2 =
        Except.error e' ∧
      ∃ r', r' ∈ (syncHandler badBackend (fun _ => true) [repoA, repoB] [] none).1 ∧
        badBackend r' = Except.error e' :=
  batch_failure_rejects_whole_batch.1 badBackend (fun _ => true) [repoA, repoB] []
    none repoA GitError.divergedHistory (by decide) rfl

/-- Helper: every member of a list of naturals is bounded by the list's
right fold with `max`. -/
theorem le_foldr_max (l : List Nat) (x : Nat) (hx : x ∈ l) : x ≤ l.foldr max 0 := by
  induction l with
  | nil => cases hx
  | cons y ys ih =>
    cases hx with
    | head => exact Nat.le_max_left _ _
    | tail _ h => exact (ih h).trans (Nat.le_max_right _ _)

/-- Helper: the fresh commit id is not already in the object store. -/
theorem freshSha_not_mem (r : CommitRepo) : freshSha r ∉ r.commits := by
  intro hmem
  exact Nat.not_succ_le_self _ (le_foldr_max r.commits _ hmem)

/-- Claim C3, counterexample: on the concrete clean repository (HEAD at
commit `1`, working tree equal to HEAD's tree, zero pending changes),
`commitAll` does not fail — it succeeds and the commit count grows from
`1` to `2`, so a (empty) commit is created, refuting both that it fails
with `NothingToCommitError` and that no commit is created. -/
theorem commitAll_clean_commits_counterexample :
    Except.map (fun p => p.1.commits.length) (commitAll cleanCommitRepo "wip") =
      Except.ok 2 := by
  rfl

/-- Claim C3, amended: on a repository whose working tree is clean (zero
pending changes: the staged tree equals HEAD's tree), `commitAll` does
not fail with `NothingToCommitError`; provided HEAD exists it succeeds,
creating a fresh commit with the given message whose tree equals the
parent's tree (an empty commit), and it fails only with the no-HEAD
error when the repository has no commits yet. -/
theorem commitAll_clean_creates_empty_commit (r : CommitRepo) (message : String) (h : Sha)
    (hh : r.headCommit = some h) (hclean : r.workTree = r.treeOf h) :
    ∃ r' c, commitAll r message = Except.ok (r', c) ∧
      r'.commits = c :: r.commits ∧ c ∉ r.commits ∧ r'.headCommit = some c ∧
      r'.treeOf c = r.treeOf h ∧ r'.msgOf c = message := by
  have hc : commitAll r message = Except.ok
      ({ r with
          headCommit := some (freshSha r),
          commits := freshSha r :: r.commits,
          treeOf := fun c => if c = freshSha r then r.workTree else r.treeOf c,
          msgOf := fun c => if c = freshSha r then message else r.msgOf c },
        freshSha r) := by
    simp [commitAll, hh]
  refine ⟨_, freshSha r, hc, rfl, freshSha_not_mem r, rfl, ?_, ?_⟩
  · simp [hclean]
  · simp

/-- Witness for the amended C3: on the concrete clean repository the
hypotheses hold, and `commitAll` succeeds with a fresh empty commit. -/
theorem commitAll_clean_creates_empty_commit_witness :
    ∃ r' c, commitAll cleanCommitRepo "wip" = Except.ok (r', c) ∧
      r'.commits = c :: cleanCommitRepo.commits ∧ c ∉ cleanCommitRepo.commits ∧
      r'.headCommit = some c ∧ r'.treeOf c = cleanCommitRepo.treeOf 1 ∧
      r'.msgOf c = "wip" :=
  commitAll_clean_creates_empty_commit cleanCommitRepo "wip" 1 rfl rfl

/-- Claim C4: `sync` fetches and then merges the current branch with
`origin/master` fast-forward-only; when the local branch and the fetched
upstream have diverged (neither commit reachable from the other) it fails
with the diverged-history error, and no successful `sync` ever adds a
commit to the object store — a merge commit is never created. -/
theorem sync_diverged_fails_no_merge (fuel : Nat) (r : SyncRepo) (toC m : Sha)
    (hcb : r.currentBranch ≠ "origin/master")
    (hto : r.refs r.currentBranch = some toC)
    (hm : r.remoteMaster = some m)
    (h1 : isAncestorOf r.parents fuel m toC = false)
    (h2 : isAncestorOf r.parents fuel toC m = false) :
    sync fuel r = Except.error GitError.divergedHistory ∧
    (∀ s s', sync fuel s = Except.ok s' → s'.commits = s.commits) := by
  constructor
  · simp [sync, fetchAll, mergeBranchesFFOnly, hcb, hto, hm, h1, h2]
  · intro s s' hs
    simp only [sync, fetchAll, mergeBranchesFFOnly] at hs
    split at hs
    · split at hs
      · cases hs with
        | refl => rfl
      · split at hs
        · cases hs with
          | refl => rfl
        · cases hs
    · cases hs
    · cases hs

/-- Witness for C4: on the concrete diverged repository (`feature` at
commit `1`, remote master at commit `2`, both children of root `0`),
`sync` fails with the diverged-history error. -/
theorem sync_diverged_fails_no_merge_witness :
    sync 8 syncRepoDiverged = Except.error GitError.divergedHistory :=
  (sync_diverged_fails_no_merge 8 syncRepoDiverged 1 2 (by decide) rfl rfl rfl rfl).1

/-- Claim C8: the upstream `sync` merges from is the fixed ref name
`origin/master`, not discovered per repository.  First, the outcome of
`sync` (observed as the resulting commit of the current branch) is
unchanged under replacing the whole ref store by any function that agrees
on the current branch alone — no other per-repository ref is consulted,
because the fetch overwrites `origin/master` with the remote's master.
Second, whatever branch is currently checked out, a fast-forwarding
`sync` advances that branch to the remote master commit. -/
theorem sync_upstream_is_origin_master (fuel : Nat) (r : SyncRepo) :
    (∀ f : String → Option Sha, f r.currentBranch = r.refs r.currentBranch →
      Except.map (fun s => s.refs s.currentBranch) (sync fuel { r with refs := f }) =
      Except.map (fun s => s.refs s.currentBranch) (sync fuel r)) ∧
    (∀ toC m, r.currentBranch ≠ "origin/master" →
      r.refs r.currentBranch = some toC → r.remoteMaster = some m →
      isAncestorOf r.parents fuel m toC = false →
      isAncestorOf r.parents fuel toC m = true →
      ∃ r', sync fuel r = Except.ok r' ∧ r'.refs r.currentBranch = some m) := by
  constructor
  · intro f hf
    by_cases hom : r.currentBranch = "origin/master"
    · cases hmm : r.remoteMaster with
      | none => simp [sync, fetchAll, mergeBranchesFFOnly, hom, hmm]
      | some m =>
        by_cases hA : isAncestorOf r.parents fuel m m = true
        · simp [sync, fetchAll, mergeBranchesFFOnly, Except.map, hom, hmm, hA]
        · simp [sync, fetchAll, mergeBranchesFFOnly, Except.map, hom, hmm, hA]
    · cases hrc : r.refs r.currentBranch with
      | none => simp [sync, fetchAll, mergeBranchesFFOnly, hom, hf, hrc]
      | some toC =>
        cases hmm : r.remoteMaster with
        | none => simp [sync, fetchAll, mergeBranchesFFOnly, hom, hf, hrc, hmm]
        | some m =>
          by_cases hA : isAncestorOf r.parents fuel m toC = true
          · simp [sync, fetchAll, mergeBranchesFFOnly, Except.map, hom, hf, hrc, hmm, hA]
          · by_cases hB : isAncestorOf r.parents fuel toC m = true
            · simp [sync, fetchAll, mergeBranchesFFOnly, Except.map, hom, hf, hrc, hmm,
                hA, hB]
            · simp [sync, fetchAll, mergeBranchesFFOnly, Except.map, hom, hf, hrc, hmm,
                hA, hB]
  · intro toC m hcb hto hm h1 h2
    have hs : sync fuel r = Except.ok
        { fetchAll r with refs := fun n =>
            if n = r.currentBranch then some m else (fetchAll r).refs n } := by
      simp [sync, fetchAll, mergeBranchesFFOnly, hcb, hto, hm, h1, h2]
    refine ⟨_, hs, ?_⟩
    simp

/-- Witness for C8: the concrete repository is on branch `feature` (not
the default branch) strictly behind the remote master; `sync`
fast-forwards `feature` to the remote master commit `2`. -/
theorem sync_upstream_is_origin_master_witness :
    ∃ r', sync 8 syncRepoBehind = Except.ok r' ∧
      r'.refs syncRepoBehind.currentBranch = some 2 :=
  (sync_upstream_is_origin_master 8 syncRepoBehind).2 0 2 (by decide) rfl rfl rfl rfl
